import Mathlib

/-!
Shallow embedding of `packages/angular_devkit/build_angular/src/utils/i18n-inlining.ts`.

The two functions of that file, `emittedFilesToInlineOptions` and
`i18nInlineEmittedFiles`, are modelled as pure Lean functions over an explicit
filesystem state.  File paths are lists of path segments (`path.join` is list
append, `path.relative root p` drops the root's segments).  Node's `fs`
failures are modelled by an `FsState` that, besides the association list of
files, carries the sets of paths whose read or unlink fails with a
permission error; a read or unlink of an absent path fails with `ENOENT`,
matching Node semantics.  The external collaborators
(`BundleActionExecutor.inlineAll`, `copyAssets`, `Spinner`, the logger) are
modelled as oracles in an `Env` record, respectively as log entries.
-/

/-- A file path, as its list of segments (`path.join` is append). -/
abbrev FPath := List String

/-- The error codes distinguished by the code under study: `ENOENT`
(no such file) versus anything else (represented by `EACCES`). -/
inductive ErrCode where
  | enoent
  | eacces
deriving DecidableEq

/-- A Node `fs` exception: an error code plus a message. -/
structure IoErr where
  code : ErrCode
  msg : String
deriving DecidableEq

/-- Severity of one diagnostic, as produced by the transformation step. -/
inductive DiagType where
  | error
  | warning
deriving DecidableEq

/-- A severity-tagged message from one file's transformation. -/
structure Diagnostic where
  type : DiagType
  message : String
deriving DecidableEq

/-- One streamed result of `executor.inlineAll`: the processed file and its
diagnostics (`result.file`, `result.diagnostics` in the source). -/
structure TransformResult where
  file : FPath
  diagnostics : List Diagnostic
deriving DecidableEq

/-- The `missingTranslation` policy (`'error' | 'warning' | 'ignore'`);
the source also allows `undefined`, modelled with `Option`. -/
inductive MissingTranslation where
  | error
  | warning
  | ignore
deriving DecidableEq

/-- One emitted build artifact (`EmittedFiles` of build-webpack); only the
fields this code reads are kept: `name?` (an optional string — possibly
empty), `file`, `extension` and the `asset` flag. -/
structure EmittedFile where
  name : Option String
  file : FPath
  extension : String
  asset : Bool
deriving DecidableEq

/-- The `InlineOptions` record built for each eligible artifact. -/
structure InlineOptions where
  filename : FPath
  code : String
  map : Option String := none
  es5 : Bool
  outputPath : FPath
  missingTranslation : Option MissingTranslation
  setLocale : Bool
deriving DecidableEq

/-- One logger call, tagged by the channel used
(`logger.debug` / `logger.warn` / `logger.error`). -/
inductive LogEntry where
  | debug (msg : String)
  | warn (msg : String)
  | error (msg : String)
deriving DecidableEq

/-- Association-list lookup on the file table. -/
def lookupF : List (FPath × String) → FPath → Option String
  | [], _ => none
  | (q, c) :: rest, p => if p = q then some c else lookupF rest p

/-- Remove every entry of a path from the file table (the effect of a
successful `unlinkSync`). -/
def removeF : List (FPath × String) → FPath → List (FPath × String)
  | [], _ => []
  | (q, c) :: rest, p => if p = q then removeF rest p else (q, c) :: removeF rest p

/-- The filesystem state: the files by path, plus the paths on which a read,
respectively an unlink, fails with a permission error. -/
structure FsState where
  files : List (FPath × String)
  readDenied : List FPath
  unlinkDenied : List FPath
deriving DecidableEq

/-- `fs.readFileSync`: a denied path raises `EACCES`; an absent path raises
`ENOENT`; otherwise the content is returned. -/
def readSync (fs : FsState) (p : FPath) : Except IoErr String :=
  if p ∈ fs.readDenied then .error ⟨.eacces, "EACCES: permission denied"⟩
  else
    match lookupF fs.files p with
    | some c => .ok c
    | none => .error ⟨.enoent, "ENOENT: no such file or directory"⟩

/-- `fs.unlinkSync`: a denied path raises `EACCES`; an absent path raises
`ENOENT`; otherwise the file is removed. -/
def unlinkSync (fs : FsState) (p : FPath) : Except IoErr FsState :=
  if p ∈ fs.unlinkDenied then .error ⟨.eacces, "EACCES: permission denied"⟩
  else
    match lookupF fs.files p with
    | some _ => .ok { fs with files := removeF fs.files p }
    | none => .error ⟨.enoent, "ENOENT: no such file or directory"⟩

/-- `path.join` on segment paths. -/
def pathJoin (a b : FPath) : FPath := a ++ b

/-- `path.relative root p` for a `p` under `root`: drop the root's segments. -/
def pathRelative (root p : FPath) : FPath := p.drop root.length

/-- `originalPath + '.map'` of the source: string concatenation on a path
appends `".map"` to its last segment. -/
def addMapExt : FPath → FPath
  | [] => [".map"]
  | [x] => [x ++ ".map"]
  | x :: y :: xs => x :: addMapExt (y :: xs)

/-- The parameters of `emittedFilesToInlineOptions` that stay fixed over the
loop: excluded entry-point names, the intermediate root, the base output
path, the `es5` flag and the missing-translation policy. -/
structure InlineConfig where
  scriptsEntryPointName : List String
  emittedPath : FPath
  outputPath : FPath
  es5 : Bool
  missingTranslation : Option MissingTranslation
deriving DecidableEq

/-- The mutable state of the `emittedFilesToInlineOptions` loop: the
filesystem, the `options` and `originalFiles` arrays and the logger calls
made so far. -/
structure ConsumeState where
  fs : FsState
  options : List InlineOptions
  originalFiles : List FPath
  log : List LogEntry
deriving DecidableEq

/-- The skip test of the loop:
`emittedFile.asset || emittedFile.extension !== '.js' ||
(emittedFile.name && scriptsEntryPointName.includes(emittedFile.name))`.
A JavaScript string is truthy exactly when it is defined and nonempty. -/
def isSkipped (scriptsEntryPointName : List String) (ef : EmittedFile) : Bool :=
  ef.asset || ef.extension ≠ ".js" ||
    (match ef.name with
     | some n => ¬ n = "" && scriptsEntryPointName.contains n
     | none => false)

/-- One iteration of the `for (const emittedFile of emittedFiles)` loop of
`emittedFilesToInlineOptions`: skip ineligible artifacts; read the primary
file (a read failure propagates); record the path, attempt the delete
(failure only logged); read the companion map (`ENOENT` ignored, any other
read error propagates; a map delete failure only logged); queue the
`InlineOptions`. -/
def consumeOne (cfg : InlineConfig) (st : ConsumeState) (ef : EmittedFile) :
    Except IoErr ConsumeState :=
  if isSkipped cfg.scriptsEntryPointName ef then .ok st
  else
    let originalPath := pathJoin cfg.emittedPath ef.file
    match readSync st.fs originalPath with
    | .error e => .error e
    | .ok code =>
      let action : InlineOptions :=
        { filename := ef.file
          code := code
          es5 := cfg.es5
          outputPath := cfg.outputPath
          missingTranslation := cfg.missingTranslation
          setLocale := ef.name == some "main" || ef.name == some "vendor" }
      let st1 : ConsumeState := { st with originalFiles := st.originalFiles ++ [originalPath] }
      let st2 : ConsumeState :=
        match unlinkSync st1.fs originalPath with
        | .ok fs2 => { st1 with fs := fs2 }
        | .error e =>
          { st1 with
            log := st1.log ++ [.debug ("Unable to delete i18n temporary file: " ++ e.msg)] }
      let originalMapPath := addMapExt originalPath
      match readSync st2.fs originalMapPath with
      | .ok mapContent =>
        let action2 := { action with map := some mapContent }
        let st3 : ConsumeState :=
          { st2 with originalFiles := st2.originalFiles ++ [originalMapPath] }
        let st4 : ConsumeState :=
          match unlinkSync st3.fs originalMapPath with
          | .ok fs4 => { st3 with fs := fs4 }
          | .error e =>
            { st3 with
              log := st3.log ++ [.debug ("Unable to delete i18n temporary file: " ++ e.msg)] }
        .ok { st4 with
              options := st4.options ++ [action2]
              log := st4.log ++ [.debug "i18n file queued for processing"] }
      | .error err =>
        if err.code ≠ ErrCode.enoent then .error err
        else
          .ok { st2 with
                options := st2.options ++ [action]
                log := st2.log ++ [.debug "i18n file queued for processing"] }

/-- The whole loop of `emittedFilesToInlineOptions`, threading the state. -/
def consumeFiles (cfg : InlineConfig) : ConsumeState → List EmittedFile → Except IoErr ConsumeState
  | st, [] => .ok st
  | st, ef :: rest =>
    match consumeOne cfg st ef with
    | .error e => .error e
    | .ok st' => consumeFiles cfg st' rest

/-- `emittedFilesToInlineOptions`, started on a fresh state over a given
filesystem. -/
def emittedFilesToInlineOptions (cfg : InlineConfig) (fs : FsState)
    (emittedFiles : List EmittedFile) : Except IoErr ConsumeState :=
  consumeFiles cfg { fs := fs, options := [], originalFiles := [], log := [] } emittedFiles

/-- The external world of `i18nInlineEmittedFiles`: the initial filesystem,
the executor's `inlineAll` (the results it yields, in completion order, and
an exception it may raise after those yields), and whether `copyAssets`
raises. -/
structure Env where
  fs0 : FsState
  inline : List InlineOptions → List TransformResult × Option String
  copyFail : Option String

/-- The `InlineConfig` that `i18nInlineEmittedFiles` hands to
`emittedFilesToInlineOptions` (its arguments in the source's order). -/
def mkConfig (baseOutputPath : FPath) (scriptsEntryPointName : List String)
    (emittedPath : FPath) (es5 : Bool)
    (missingTranslation : Option MissingTranslation) : InlineConfig :=
  { scriptsEntryPointName := scriptsEntryPointName
    emittedPath := emittedPath
    outputPath := baseOutputPath
    es5 := es5
    missingTranslation := missingTranslation }

/-- The accumulator of the `for await (const result of executor.inlineAll(...))`
loop: the `hasErrors` flag and the logger calls. -/
structure AggState where
  hasErrors : Bool
  log : List LogEntry
deriving DecidableEq

/-- One diagnostic of one result: stop the spinner, report on the channel of
the severity (`error` sets `hasErrors`), restart the spinner. -/
def processDiagnostic (st : AggState) (d : Diagnostic) : AggState :=
  match d.type with
  | .error => { hasErrors := true, log := st.log ++ [.error d.message] }
  | .warning => { st with log := st.log ++ [.warn d.message] }

/-- One streamed result: the debug line, then every diagnostic in order. -/
def processResult (st : AggState) (r : TransformResult) : AggState :=
  r.diagnostics.foldl processDiagnostic
    { st with log := st.log ++ [.debug "i18n file processed"] }

/-- The whole result loop. -/
def processResults (st : AggState) (rs : List TransformResult) : AggState :=
  rs.foldl processResult st

/-- Whether some result of a stream carries an error-severity diagnostic. -/
def anyErrorDiag (rs : List TransformResult) : Bool :=
  rs.any fun r => r.diagnostics.any fun d => d.type == DiagType.error

/-- The channel one diagnostic is reported on: error severity on the error
channel, anything else on the warning channel. -/
def diagEntry (d : Diagnostic) : LogEntry :=
  match d.type with
  | .error => .error d.message
  | .warning => .warn d.message

/-- The reporting trace the result loop is proved to produce: for each result
in arrival order, the debug line followed by each of its diagnostics on the
channel of its severity. -/
def reportedDiagnostics : List TransformResult → List LogEntry
  | [] => []
  | r :: rs => .debug "i18n file processed" :: (r.diagnostics.map diagEntry ++ reportedDiagnostics rs)

/-- The filesystem-independent identity of one `InlineOptions`:
its filename and its `setLocale` flag. -/
def optionsKey (o : InlineOptions) : FPath × Bool :=
  (o.filename, o.setLocale)

/-- The same identity computed from the artifact the request is built from:
`setLocale` is `name === 'main' || name === 'vendor'`. -/
def efLocaleKey (ef : EmittedFile) : FPath × Bool :=
  (ef.file, ef.name == some "main" || ef.name == some "vendor")

/-- Modelled from the spec: `copyAssets` (`./copy-assets`, not part of the
studied file) copies every file under the input root recursively into each
output root, excluding the files whose path relative to the input root is in
the ignore list.  The value is the list of copied paths, relative to the
input root; each output root receives exactly these. -/
def copyAssetsModel (fs : FsState) (input : FPath) (ignore : List FPath) : List FPath :=
  fs.files.filterMap fun pr =>
    if input <+: pr.1 ∧ pathRelative input pr.1 ∉ ignore
    then some (pathRelative input pr.1) else none

/-- Everything observable about one run of `i18nInlineEmittedFiles`:
the returned boolean, how many times `executor.stop()` ran, the options
submitted to the executor (`none` when consumption threw before
`inlineAll` was called), the `processedFiles` list, the stream results the
loop processed, the relative paths `copyAssets` copied into every output
root (`none` when it did not run to completion), the logger calls, and the
spinner's failure message if any. -/
structure RunOutcome where
  success : Bool
  stopCalls : Nat
  submitted : Option (List InlineOptions)
  consumed : List FPath
  resultsProcessed : List TransformResult
  copiedRel : Option (List FPath)
  log : List LogEntry
  failMsg : Option String
deriving DecidableEq

/-- `i18nInlineEmittedFiles`: construct the executor, consume the emitted
files, stream the results through the aggregation loop, copy the remaining
files, and return `!hasErrors`; any exception is caught, reported through
`spinner.fail` and turned into `false`; `executor.stop()` runs in the
`finally` block on every path.  Logger calls made by a consumption that
throws are not tracked. -/
def i18nInlineEmittedFiles (env : Env) (emittedFiles : List EmittedFile)
    (baseOutputPath : FPath) (outputPaths : List FPath)
    (scriptsEntryPointName : List String) (emittedPath : FPath)
    (es5 : Bool) (missingTranslation : Option MissingTranslation) : RunOutcome :=
  let cfg : InlineConfig :=
    mkConfig baseOutputPath scriptsEntryPointName emittedPath es5 missingTranslation
  match emittedFilesToInlineOptions cfg env.fs0 emittedFiles with
  | .error e =>
    { success := false
      stopCalls := 1
      submitted := none
      consumed := []
      resultsProcessed := []
      copiedRel := none
      log := []
      failMsg := some ("Localized bundle generation failed: " ++ e.msg) }
  | .ok st =>
    let streamed := env.inline st.options
    let agg := processResults { hasErrors := false, log := st.log } streamed.1
    match streamed.2 with
    | some e =>
      { success := false
        stopCalls := 1
        submitted := some st.options
        consumed := st.originalFiles
        resultsProcessed := streamed.1
        copiedRel := none
        log := agg.log
        failMsg := some ("Localized bundle generation failed: " ++ e) }
    | none =>
      match env.copyFail with
      | some e =>
        { success := false
          stopCalls := 1
          submitted := some st.options
          consumed := st.originalFiles
          resultsProcessed := streamed.1
          copiedRel := none
          log := agg.log
          failMsg := some ("Localized bundle generation failed: " ++ e) }
      | none =>
        { success := !agg.hasErrors
          stopCalls := 1
          submitted := some st.options
          consumed := st.originalFiles
          resultsProcessed := streamed.1
          copiedRel :=
            some (copyAssetsModel st.fs emittedPath
              (st.originalFiles.map (pathRelative emittedPath)))
          log := agg.log
          failMsg :=
            if agg.hasErrors then some "Localized bundle generation failed." else none }


/-! ## Concrete scenarios used by the witnesses and counterexamples -/

/-- Scenario A of the spec: a `main` script plus a `styles.css` asset. -/
def fsA : FsState :=
  { files := [(["main.js"], "code"), (["styles.css"], "css")]
    readDenied := []
    unlinkDenied := [] }

/-- The `main` entry artifact. -/
def efMain : EmittedFile :=
  { name := some "main", file := ["main.js"], extension := ".js", asset := false }

/-- The `styles.css` asset artifact. -/
def efStyles : EmittedFile :=
  { name := some "styles", file := ["styles.css"], extension := ".css", asset := true }

/-- The artifacts of scenario A. -/
def efsA : List EmittedFile := [efMain, efStyles]

/-- The configuration shared by the concrete scenarios: output root `out`,
no excluded entry-point names, intermediate root at the filesystem root. -/
def cfgA : InlineConfig := mkConfig ["out"] [] [] false none

/-- The initial consumption state over scenario A. -/
def st0A : ConsumeState := { fs := fsA, options := [], originalFiles := [], log := [] }

/-- The state consumption reaches on scenario A. -/
def stA : ConsumeState :=
  { fs := { files := [(["styles.css"], "css")], readDenied := [], unlinkDenied := [] }
    options := [{ filename := ["main.js"], code := "code", map := none, es5 := false,
                  outputPath := ["out"], missingTranslation := none, setLocale := true }]
    originalFiles := [["main.js"]]
    log := [.debug "i18n file queued for processing"] }

/-- Scenario A with a stream that yields nothing and raises nothing. -/
def envA : Env := { fs0 := fsA, inline := fun _ => ([], none), copyFail := none }

/-- The `vendor` entry artifact. -/
def efVendor : EmittedFile :=
  { name := some "vendor", file := ["vendor.js"], extension := ".js", asset := false }

/-- Scenario B: `main` and `vendor` scripts plus the asset. -/
def fsB : FsState :=
  { files := [(["main.js"], "code"), (["vendor.js"], "vcode"), (["styles.css"], "css")]
    readDenied := []
    unlinkDenied := [] }

/-- The artifacts of scenario B. -/
def efsB : List EmittedFile := [efMain, efVendor, efStyles]

/-- Scenario B stream: an error-severity diagnostic for `main.js` arrives
first, then a warning for `vendor.js`. -/
def resultsB : List TransformResult :=
  [ { file := ["main.js"], diagnostics := [⟨.error, "missing translation"⟩] },
    { file := ["vendor.js"], diagnostics := [⟨.warning, "unused locale data"⟩] } ]

/-- The state consumption reaches on scenario B. -/
def stB : ConsumeState :=
  { fs := { files := [(["styles.css"], "css")], readDenied := [], unlinkDenied := [] }
    options :=
      [ { filename := ["main.js"], code := "code", map := none, es5 := false,
          outputPath := ["out"], missingTranslation := none, setLocale := true },
        { filename := ["vendor.js"], code := "vcode", map := none, es5 := false,
          outputPath := ["out"], missingTranslation := none, setLocale := true } ]
    originalFiles := [["main.js"], ["vendor.js"]]
    log := [.debug "i18n file queued for processing", .debug "i18n file queued for processing"] }

/-- Scenario B environment: the stream yields both results, no exception. -/
def envB : Env := { fs0 := fsB, inline := fun _ => (resultsB, none), copyFail := none }

/-- Scenario for the C5 counterexample: consumption succeeds, then the
stream raises an exception before yielding anything. -/
def envC5 : Env :=
  { fs0 := fsA, inline := fun _ => ([], some "worker crashed"), copyFail := none }

/-- Scenario for the C4 counterexample: the map file read fails with a
permission error, not `ENOENT`. -/
def fsC4 : FsState :=
  { files := [(["m.js"], "code")], readDenied := [["m.js.map"]], unlinkDenied := [] }

/-- The eligible artifact of the C4 counterexample. -/
def efC4 : EmittedFile :=
  { name := none, file := ["m.js"], extension := ".js", asset := false }

/-- The C4 counterexample environment. -/
def envC4 : Env := { fs0 := fsC4, inline := fun _ => ([], none), copyFail := none }

/-- The C3 counterexample artifact: its logical name is present but empty. -/
def efC3 : EmittedFile :=
  { name := some "", file := ["x.js"], extension := ".js", asset := false }

/-- The C3 counterexample filesystem. -/
def fsC3 : FsState := { files := [(["x.js"], "x")], readDenied := [], unlinkDenied := [] }

/-- The C3 counterexample configuration: the excluded entry-point name set
contains the empty string. -/
def cfgC3 : InlineConfig := mkConfig ["out"] [""] [] false none

/-- C9 witness scenario: the primary file exists but cannot be deleted. -/
def fsC9 : FsState :=
  { files := [(["a.js"], "A")], readDenied := [], unlinkDenied := [["a.js"]] }

/-- The initial consumption state of the C9 witness. -/
def stC9 : ConsumeState := { fs := fsC9, options := [], originalFiles := [], log := [] }

/-- The eligible artifact of the C9 and C10 witnesses. -/
def efC9 : EmittedFile :=
  { name := none, file := ["a.js"], extension := ".js", asset := false }

/-- C10 witness scenario: primary and map file exist, neither deletable. -/
def fsC10 : FsState :=
  { files := [(["a.js"], "A"), (["a.js.map"], "M")]
    readDenied := []
    unlinkDenied := [["a.js"], ["a.js.map"]] }

/-- The initial consumption state of the C10 witness. -/
def stC10 : ConsumeState := { fs := fsC10, options := [], originalFiles := [], log := [] }

/-! ## Basic lemmas about the filesystem model and paths -/

theorem lookupF_removeF (l : List (FPath × String)) (p q : FPath) :
    lookupF (removeF l p) q = if q = p then none else lookupF l q := by
  induction l with
  | nil => simp [removeF, lookupF]
  | cons hd tl ih =>
    obtain ⟨a, c⟩ := hd
    simp only [removeF, lookupF]
    by_cases hpa : p = a
    · subst hpa
      rw [if_pos rfl, ih]
      by_cases hq : q = p
      · simp [hq]
      · simp [hq]
    · rw [if_neg hpa]
      by_cases hq : q = a
      · subst hq
        have hqp : ¬ q = p := fun h => hpa h.symm
        simp [lookupF, hqp]
      · simp [lookupF, hq, ih]

theorem lookupF_mem {l : List (FPath × String)} {p : FPath} {c : String}
    (h : lookupF l p = some c) : (p, c) ∈ l := by
  induction l with
  | nil => simp [lookupF] at h
  | cons hd tl ih =>
    obtain ⟨a, b⟩ := hd
    by_cases hq : p = a
    · subst hq
      simp [lookupF] at h
      simp [h]
    · simp [lookupF, hq] at h
      exact List.mem_cons_of_mem _ (ih h)

theorem addMapExt_append (a f : FPath) (hf : f ≠ []) :
    addMapExt (a ++ f) = a ++ addMapExt f := by
  induction a with
  | nil => simp
  | cons x xs ih =>
    cases h : xs ++ f with
    | nil => exact absurd (List.append_eq_nil.mp h).2 hf
    | cons y ys =>
      show addMapExt (x :: (xs ++ f)) = x :: (xs ++ addMapExt f)
      rw [h, show addMapExt (x :: y :: ys) = x :: addMapExt (y :: ys) from rfl, ← h, ih]

theorem addMapExt_ne (p : FPath) : addMapExt p ≠ p := by
  induction p with
  | nil => simp [addMapExt]
  | cons x xs ih =>
    cases xs with
    | nil =>
      simp only [addMapExt, ne_eq, List.cons.injEq, and_true]
      intro h
      have hl := congrArg String.length h
      rw [String.length_append] at hl
      have : ".map".length = 4 := by decide
      omega
    | cons y ys =>
      simp only [addMapExt, ne_eq, List.cons.injEq, true_and]
      exact fun h => ih h

theorem pathRelative_pathJoin (a b : FPath) : pathRelative a (pathJoin a b) = b :=
  List.drop_left a b

theorem mem_copyAssetsModel {fs : FsState} {input : FPath} {ignore : List FPath} {x : FPath} :
    x ∈ copyAssetsModel fs input ignore ↔
      ∃ q c, (q, c) ∈ fs.files ∧ input <+: q ∧ pathRelative input q ∉ ignore ∧
        pathRelative input q = x := by
  constructor
  · intro h
    rw [copyAssetsModel, List.mem_filterMap] at h
    obtain ⟨⟨q, c⟩, hmem, hf⟩ := h
    by_cases hc : input <+: q ∧ pathRelative input q ∉ ignore
    · rw [if_pos hc] at hf
      exact ⟨q, c, hmem, hc.1, hc.2, Option.some.inj hf⟩
    · rw [if_neg hc] at hf
      exact absurd hf (Option.noConfusion)
  · rintro ⟨q, c, hmem, h1, h2, h3⟩
    subst h3
    rw [copyAssetsModel, List.mem_filterMap]
    exact ⟨⟨q, c⟩, hmem, by simp [h1, h2]⟩

/-! ## The aggregation loop -/

theorem foldl_processDiagnostic (ds : List Diagnostic) (h : Bool) (l : List LogEntry) :
    ds.foldl processDiagnostic ⟨h, l⟩ =
      ⟨h || ds.any (fun d => d.type == DiagType.error), l ++ ds.map diagEntry⟩ := by
  induction ds generalizing h l with
  | nil => simp
  | cons d ds ih =>
    cases hd : d.type <;>
      simp [processDiagnostic, hd, ih, diagEntry, List.append_assoc, Bool.or_assoc,
        show (DiagType.error == DiagType.error) = true from rfl,
        show (DiagType.warning == DiagType.error) = false from rfl]

theorem processResults_spec (rs : List TransformResult) (h : Bool) (l : List LogEntry) :
    processResults ⟨h, l⟩ rs = ⟨h || anyErrorDiag rs, l ++ reportedDiagnostics rs⟩ := by
  induction rs generalizing h l with
  | nil => simp [processResults, anyErrorDiag, reportedDiagnostics]
  | cons r rs ih =>
    show processResults (processResult ⟨h, l⟩ r) rs = _
    rw [processResult, foldl_processDiagnostic, ih]
    simp [anyErrorDiag, reportedDiagnostics, List.append_assoc, Bool.or_assoc]

theorem readSync_ok {fs : FsState} {p : FPath} {c : String} (h : readSync fs p = .ok c) :
    p ∉ fs.readDenied ∧ lookupF fs.files p = some c := by
  rw [readSync] at h
  split at h
  · exact absurd h (by simp)
  · split at h
    · next hl => exact ⟨by assumption, by rw [hl]; injection h with h'; rw [h']⟩
    · exact absurd h (by simp)

theorem unlinkSync_ok {fs fs' : FsState} {p : FPath} (h : unlinkSync fs p = .ok fs') :
    fs' = { fs with files := removeF fs.files p } := by
  rw [unlinkSync] at h
  split at h
  · exact absurd h (by simp)
  · split at h
    · injection h with h'
      exact h'.symm
    · exact absurd h (by simp)

theorem consumeOne_ok_shape {cfg : InlineConfig} {st st' : ConsumeState} {ef : EmittedFile}
    (h : consumeOne cfg st ef = .ok st') :
    (∀ p, p ∈ st.originalFiles → p ∈ st'.originalFiles) ∧
    (∀ p, p ∈ st'.originalFiles → p ∈ st.originalFiles ∨
        p = pathJoin cfg.emittedPath ef.file ∨
        p = addMapExt (pathJoin cfg.emittedPath ef.file)) ∧
    (∀ p, lookupF st'.fs.files p = none →
        lookupF st.fs.files p = none ∨ p ∈ st'.originalFiles) := by
  simp only [consumeOne] at h
  split at h
  · injection h with h'
    subst h'
    exact ⟨fun p hp => hp, fun p hp => Or.inl hp, fun p hp => Or.inl hp⟩
  · cases hr : readSync st.fs (pathJoin cfg.emittedPath ef.file) with
    | error e => rw [hr] at h; exact absurd h (by simp)
    | ok code =>
      rw [hr] at h
      simp only [] at h
      cases hu : unlinkSync st.fs (pathJoin cfg.emittedPath ef.file) with
      | ok fs2 =>
        have hu2 := unlinkSync_ok hu
        subst hu2
        rw [hu] at h
        simp only [] at h
        cases hm : readSync { st.fs with files := removeF st.fs.files (pathJoin cfg.emittedPath ef.file) }
            (addMapExt (pathJoin cfg.emittedPath ef.file)) with
        | ok mapContent =>
          rw [hm] at h
          simp only [] at h
          cases hmu : unlinkSync { st.fs with files := removeF st.fs.files (pathJoin cfg.emittedPath ef.file) }
              (addMapExt (pathJoin cfg.emittedPath ef.file)) with
          | ok fs3 =>
            have hmu2 := unlinkSync_ok hmu
            subst hmu2
            rw [hmu] at h
            simp only [] at h
            injection h with h'
            subst h'
            refine ⟨fun p hp => by simp [List.mem_append, hp], ?_, ?_⟩
            · intro p hp
              simp only [List.mem_append, List.mem_singleton] at hp
              tauto
            · intro p hp
              simp only [lookupF_removeF] at hp
              by_cases hmp : p = addMapExt (pathJoin cfg.emittedPath ef.file)
              · exact Or.inr (by simp [List.mem_append, hmp])
              · by_cases hj : p = pathJoin cfg.emittedPath ef.file
                · exact Or.inr (by simp [List.mem_append, hj])
                · rw [if_neg hmp, if_neg hj] at hp
                  exact Or.inl hp
          | error e2 =>
            rw [hmu] at h
            simp only [] at h
            injection h with h'
            subst h'
            refine ⟨fun p hp => by simp [List.mem_append, hp], ?_, ?_⟩
            · intro p hp
              simp only [List.mem_append, List.mem_singleton] at hp
              tauto
            · intro p hp
              simp only [lookupF_removeF] at hp
              by_cases hj : p = pathJoin cfg.emittedPath ef.file
              · exact Or.inr (by simp [List.mem_append, hj])
              · rw [if_neg hj] at hp
                exact Or.inl hp
        | error err =>
          rw [hm] at h
          simp only [] at h
          split at h
          · exact absurd h (by simp)
          · injection h with h'
            subst h'
            refine ⟨fun p hp => by simp [List.mem_append, hp], ?_, ?_⟩
            · intro p hp
              simp only [List.mem_append, List.mem_singleton] at hp
              tauto
            · intro p hp
              simp only [lookupF_removeF] at hp
              by_cases hj : p = pathJoin cfg.emittedPath ef.file
              · exact Or.inr (by simp [List.mem_append, hj])
              · rw [if_neg hj] at hp
                exact Or.inl hp
      | error e =>
        rw [hu] at h
        simp only [] at h
        cases hm : readSync st.fs (addMapExt (pathJoin cfg.emittedPath ef.file)) with
        | ok mapContent =>
          rw [hm] at h
          simp only [] at h
          cases hmu : unlinkSync st.fs (addMapExt (pathJoin cfg.emittedPath ef.file)) with
          | ok fs3 =>
            have hmu2 := unlinkSync_ok hmu
            subst hmu2
            rw [hmu] at h
            simp only [] at h
            injection h with h'
            subst h'
            refine ⟨fun p hp => by simp [List.mem_append, hp], ?_, ?_⟩
            · intro p hp
              simp only [List.mem_append, List.mem_singleton] at hp
              tauto
            · intro p hp
              simp only [lookupF_removeF] at hp
              by_cases hmp : p = addMapExt (pathJoin cfg.emittedPath ef.file)
              · exact Or.inr (by simp [List.mem_append, hmp])
              · rw [if_neg hmp] at hp
                exact Or.inl hp
          | error e2 =>
            rw [hmu] at h
            simp only [] at h
            injection h with h'
            subst h'
            refine ⟨fun p hp => by simp [List.mem_append, hp], ?_, ?_⟩
            · intro p hp
              simp only [List.mem_append, List.mem_singleton] at hp
              tauto
            · intro p hp
              exact Or.inl hp
        | error err =>
          rw [hm] at h
          simp only [] at h
          split at h
          · exact absurd h (by simp)
          · injection h with h'
            subst h'
            refine ⟨fun p hp => by simp [List.mem_append, hp], ?_, ?_⟩
            · intro p hp
              simp only [List.mem_append, List.mem_singleton] at hp
              tauto
            · intro p hp
              exact Or.inl hp

theorem consumeOne_ok_optionsKey {cfg : InlineConfig} {st st' : ConsumeState} {ef : EmittedFile}
    (h : consumeOne cfg st ef = .ok st') :
    st'.options.map optionsKey = st.options.map optionsKey ++
      (if isSkipped cfg.scriptsEntryPointName ef then [] else [efLocaleKey ef]) := by
  simp only [consumeOne] at h
  split at h
  · next hsk =>
    injection h with h'
    subst h'
    simp [hsk]
  · next hsk =>
    rw [if_neg hsk]
    cases hr : readSync st.fs (pathJoin cfg.emittedPath ef.file) with
    | error e => rw [hr] at h; exact absurd h (by simp)
    | ok code =>
      rw [hr] at h
      simp only [] at h
      cases hu : unlinkSync st.fs (pathJoin cfg.emittedPath ef.file) with
      | ok fs2 =>
        rw [hu] at h
        simp only [] at h
        cases hm : readSync fs2 (addMapExt (pathJoin cfg.emittedPath ef.file)) with
        | ok mapContent =>
          rw [hm] at h
          simp only [] at h
          cases hmu : unlinkSync fs2 (addMapExt (pathJoin cfg.emittedPath ef.file)) with
          | ok fs3 =>
            rw [hmu] at h
            simp only [] at h
            injection h with h'
            subst h'
            simp [optionsKey, efLocaleKey]
          | error e2 =>
            rw [hmu] at h
            simp only [] at h
            injection h with h'
            subst h'
            simp [optionsKey, efLocaleKey]
        | error err =>
          rw [hm] at h
          simp only [] at h
          split at h
          · exact absurd h (by simp)
          · injection h with h'
            subst h'
            simp [optionsKey, efLocaleKey]
      | error e =>
        rw [hu] at h
        simp only [] at h
        cases hm : readSync st.fs (addMapExt (pathJoin cfg.emittedPath ef.file)) with
        | ok mapContent =>
          rw [hm] at h
          simp only [] at h
          cases hmu : unlinkSync st.fs (addMapExt (pathJoin cfg.emittedPath ef.file)) with
          | ok fs3 =>
            rw [hmu] at h
            simp only [] at h
            injection h with h'
            subst h'
            simp [optionsKey, efLocaleKey]
          | error e2 =>
            rw [hmu] at h
            simp only [] at h
            injection h with h'
            subst h'
            simp [optionsKey, efLocaleKey]
        | error err =>
          rw [hm] at h
          simp only [] at h
          split at h
          · exact absurd h (by simp)
          · injection h with h'
            subst h'
            simp [optionsKey, efLocaleKey]

theorem consumeFiles_shape {cfg : InlineConfig} {st st' : ConsumeState} {efs : List EmittedFile}
    (h : consumeFiles cfg st efs = .ok st') :
    (∀ p, p ∈ st.originalFiles → p ∈ st'.originalFiles) ∧
    (∀ p, p ∈ st'.originalFiles → p ∈ st.originalFiles ∨
        ∃ ef, ef ∈ efs ∧ (p = pathJoin cfg.emittedPath ef.file ∨
          p = addMapExt (pathJoin cfg.emittedPath ef.file))) ∧
    (∀ p, lookupF st'.fs.files p = none →
        lookupF st.fs.files p = none ∨ p ∈ st'.originalFiles) := by
  induction efs generalizing st with
  | nil =>
    injection h with h'
    subst h'
    exact ⟨fun p hp => hp, fun p hp => Or.inl hp, fun p hp => Or.inl hp⟩
  | cons ef rest ih =>
    simp only [consumeFiles] at h
    cases hc : consumeOne cfg st ef with
    | error e => rw [hc] at h; exact absurd h (by simp)
    | ok st1 =>
      rw [hc] at h
      obtain ⟨a1, b1, c1⟩ := consumeOne_ok_shape hc
      obtain ⟨a2, b2, c2⟩ := ih h
      refine ⟨fun p hp => a2 p (a1 p hp), ?_, ?_⟩
      · intro p hp
        rcases b2 p hp with h1 | ⟨ef', hmem, hor⟩
        · rcases b1 p h1 with h2 | h2 | h2
          · exact Or.inl h2
          · exact Or.inr ⟨ef, List.mem_cons_self _ _, Or.inl h2⟩
          · exact Or.inr ⟨ef, List.mem_cons_self _ _, Or.inr h2⟩
        · exact Or.inr ⟨ef', List.mem_cons_of_mem _ hmem, hor⟩
      · intro p hp
        rcases c2 p hp with h1 | h1
        · rcases c1 p h1 with h2 | h2
          · exact Or.inl h2
          · exact Or.inr (a2 p h2)
        · exact Or.inr h1

theorem consumeFiles_optionsKey {cfg : InlineConfig} {st st' : ConsumeState} {efs : List EmittedFile}
    (h : consumeFiles cfg st efs = .ok st') :
    st'.options.map optionsKey = st.options.map optionsKey ++
      (efs.filter fun e => !isSkipped cfg.scriptsEntryPointName e).map efLocaleKey := by
  induction efs generalizing st with
  | nil =>
    injection h with h'
    subst h'
    simp
  | cons ef rest ih =>
    simp only [consumeFiles] at h
    cases hc : consumeOne cfg st ef with
    | error e => rw [hc] at h; exact absurd h (by simp)
    | ok st1 =>
      rw [hc] at h
      have h1 := consumeOne_ok_optionsKey hc
      have h2 := ih h
      rw [h2, h1]
      by_cases hsk : isSkipped cfg.scriptsEntryPointName ef = true
      · simp [List.filter_cons, hsk]
      · simp only [Bool.not_eq_true] at hsk
        simp [List.filter_cons, hsk, List.append_assoc]

theorem run_copied_inv {env : Env} {efs : List EmittedFile} {bo : FPath} {ops : List FPath}
    {scripts : List String} {ep : FPath} {es5 : Bool} {mt : Option MissingTranslation}
    {cs : List FPath}
    (h : (i18nInlineEmittedFiles env efs bo ops scripts ep es5 mt).copiedRel = some cs) :
    ∃ st, emittedFilesToInlineOptions (mkConfig bo scripts ep es5 mt) env.fs0 efs = .ok st ∧
      (i18nInlineEmittedFiles env efs bo ops scripts ep es5 mt).consumed = st.originalFiles ∧
      cs = copyAssetsModel st.fs ep (st.originalFiles.map (pathRelative ep)) := by
  simp only [i18nInlineEmittedFiles] at h
  cases hc : emittedFilesToInlineOptions (mkConfig bo scripts ep es5 mt) env.fs0 efs with
  | error e => rw [hc] at h; exact absurd h (by simp)
  | ok st =>
    simp only [hc] at h
    cases hs : (env.inline st.options).2 with
    | some e => simp only [hs] at h; exact absurd h (by simp)
    | none =>
      simp only [hs] at h
      cases hcf : env.copyFail with
      | some e => simp only [hcf] at h; exact absurd h (by simp)
      | none =>
        simp only [hcf, Option.some.injEq] at h
        exact ⟨st, rfl, by simp [i18nInlineEmittedFiles, hc, hs, hcf], h.symm⟩

/-- C1: the boolean returned by `i18nInlineEmittedFiles` is `true` exactly
when consumption succeeded, the executor's stream raised no exception,
`copyAssets` raised no exception, and no streamed result carried an
error-severity diagnostic; warning-severity diagnostics never make the
result `false`. -/
theorem c1_overall_verdict (env : Env) (emittedFiles : List EmittedFile)
    (baseOutputPath : FPath) (outputPaths : List FPath) (scriptsEntryPointName : List String)
    (emittedPath : FPath) (es5 : Bool) (mt : Option MissingTranslation) :
    (i18nInlineEmittedFiles env emittedFiles baseOutputPath outputPaths scriptsEntryPointName
        emittedPath es5 mt).success =
      match emittedFilesToInlineOptions
          (mkConfig baseOutputPath scriptsEntryPointName emittedPath es5 mt)
          env.fs0 emittedFiles with
      | .error _ => false
      | .ok st =>
        (env.inline st.options).2.isNone && env.copyFail.isNone &&
          !anyErrorDiag (env.inline st.options).1 := by
  simp only [i18nInlineEmittedFiles]
  cases hc : emittedFilesToInlineOptions
      (mkConfig baseOutputPath scriptsEntryPointName emittedPath es5 mt) env.fs0 emittedFiles with
  | error e => simp
  | ok st =>
    cases hs : (env.inline st.options).2 with
    | some e => simp [hs]
    | none =>
      cases hcf : env.copyFail with
      | some e => simp [hs, hcf]
      | none => simp [hs, hcf, processResults_spec]

/-- C6: on every execution path the executor is released (`stop` runs)
exactly once; and when consumption throws (for example a primary-file read
failure), the operation aborts before any transformation begins — nothing is
submitted to the executor, no result is processed — and returns `false`. -/
theorem c6_executor_release (env : Env) (emittedFiles : List EmittedFile)
    (baseOutputPath : FPath) (outputPaths : List FPath) (scriptsEntryPointName : List String)
    (emittedPath : FPath) (es5 : Bool) (mt : Option MissingTranslation) :
    (i18nInlineEmittedFiles env emittedFiles baseOutputPath outputPaths scriptsEntryPointName
        emittedPath es5 mt).stopCalls = 1 ∧
    (∀ e, emittedFilesToInlineOptions
        (mkConfig baseOutputPath scriptsEntryPointName emittedPath es5 mt)
        env.fs0 emittedFiles = .error e →
      (i18nInlineEmittedFiles env emittedFiles baseOutputPath outputPaths scriptsEntryPointName
          emittedPath es5 mt).success = false ∧
      (i18nInlineEmittedFiles env emittedFiles baseOutputPath outputPaths scriptsEntryPointName
          emittedPath es5 mt).submitted = none ∧
      (i18nInlineEmittedFiles env emittedFiles baseOutputPath outputPaths scriptsEntryPointName
          emittedPath es5 mt).resultsProcessed = [] ∧
      (i18nInlineEmittedFiles env emittedFiles baseOutputPath outputPaths scriptsEntryPointName
          emittedPath es5 mt).failMsg =
        some ("Localized bundle generation failed: " ++ e.msg)) := by
  constructor
  · simp only [i18nInlineEmittedFiles]
    cases hc : emittedFilesToInlineOptions
        (mkConfig baseOutputPath scriptsEntryPointName emittedPath es5 mt)
        env.fs0 emittedFiles with
    | error e => simp
    | ok st =>
      cases hs : (env.inline st.options).2 with
      | some e => simp [hs]
      | none =>
        cases hcf : env.copyFail with
        | some e => simp [hs, hcf]
        | none => simp [hs, hcf]
  · intro e he
    simp [i18nInlineEmittedFiles, he]

/-- C7: the result loop processes every streamed result even after an
error-severity diagnostic is observed; each diagnostic is reported, in
arrival order, on the channel of its severity (`reportedDiagnostics`); when
no exception follows, the verdict is exactly the absence of error-severity
diagnostics, so an error flips it to failure without stopping consumption
of the stream. -/
theorem c7_stream_aggregation (env : Env) (emittedFiles : List EmittedFile)
    (baseOutputPath : FPath) (outputPaths : List FPath) (scriptsEntryPointName : List String)
    (emittedPath : FPath) (es5 : Bool) (mt : Option MissingTranslation) (st : ConsumeState)
    (h : emittedFilesToInlineOptions
        (mkConfig baseOutputPath scriptsEntryPointName emittedPath es5 mt)
        env.fs0 emittedFiles = .ok st) :
    (i18nInlineEmittedFiles env emittedFiles baseOutputPath outputPaths scriptsEntryPointName
        emittedPath es5 mt).resultsProcessed = (env.inline st.options).1 ∧
    (i18nInlineEmittedFiles env emittedFiles baseOutputPath outputPaths scriptsEntryPointName
        emittedPath es5 mt).log = st.log ++ reportedDiagnostics (env.inline st.options).1 ∧
    ((env.inline st.options).2 = none → env.copyFail = none →
      (i18nInlineEmittedFiles env emittedFiles baseOutputPath outputPaths scriptsEntryPointName
          emittedPath es5 mt).success = !anyErrorDiag (env.inline st.options).1) := by
  simp only [i18nInlineEmittedFiles, h]
  cases hs : (env.inline st.options).2 with
  | some e => simp [hs, processResults_spec]
  | none =>
    cases hcf : env.copyFail with
    | some e => simp [hs, hcf, processResults_spec]
    | none => simp [hs, hcf, processResults_spec]

/-- C2: every consumed path is excluded from the pass-through copy into
every output root, and for each emitted artifact, its joined path is
consumed exactly when its file is not among the copied relative paths —
so the artifact set is covered exactly once, nothing dropped, nothing both
inlined and copied. -/
theorem c2_consumed_excluded_cover (env : Env) (emittedFiles : List EmittedFile)
    (baseOutputPath : FPath) (outputPaths : List FPath) (scriptsEntryPointName : List String)
    (emittedPath : FPath) (es5 : Bool) (mt : Option MissingTranslation) (cs : List FPath)
    (hcs : (i18nInlineEmittedFiles env emittedFiles baseOutputPath outputPaths
        scriptsEntryPointName emittedPath es5 mt).copiedRel = some cs)
    (hne : ∀ ef ∈ emittedFiles, ef.file ≠ ([] : FPath))
    (hex : ∀ ef ∈ emittedFiles,
      lookupF env.fs0.files (pathJoin emittedPath ef.file) ≠ none) :
    (∀ p ∈ (i18nInlineEmittedFiles env emittedFiles baseOutputPath outputPaths
        scriptsEntryPointName emittedPath es5 mt).consumed, pathRelative emittedPath p ∉ cs) ∧
    (∀ ef ∈ emittedFiles,
      (pathJoin emittedPath ef.file ∈ (i18nInlineEmittedFiles env emittedFiles baseOutputPath
          outputPaths scriptsEntryPointName emittedPath es5 mt).consumed ↔
        ef.file ∉ cs)) := by
  obtain ⟨st, hok, hcons, hcseq⟩ := run_copied_inv hcs
  rw [hcons]
  subst hcseq
  rw [emittedFilesToInlineOptions] at hok
  obtain ⟨ha, hb, hc⟩ := consumeFiles_shape hok
  simp only [mkConfig] at hb
  have hpref : ∀ p ∈ st.originalFiles, ∃ ef ∈ emittedFiles,
      p = pathJoin emittedPath ef.file ∨ p = pathJoin emittedPath (addMapExt ef.file) := by
    intro p hp
    rcases hb p hp with h1 | ⟨ef, hmem, hor⟩
    · simp at h1
    · refine ⟨ef, hmem, ?_⟩
      rcases hor with h2 | h2
      · exact Or.inl h2
      · refine Or.inr ?_
        rw [h2, pathJoin, pathJoin, addMapExt_append _ _ (hne ef hmem)]
  have excl : ∀ p ∈ st.originalFiles,
      pathRelative emittedPath p ∉
        copyAssetsModel st.fs emittedPath (st.originalFiles.map (pathRelative emittedPath)) := by
    intro p hp hmem
    rw [mem_copyAssetsModel] at hmem
    obtain ⟨q, c, _, _, hqnotig, hqrel⟩ := hmem
    exact hqnotig (hqrel ▸ List.mem_map_of_mem (pathRelative emittedPath) hp)
  refine ⟨excl, ?_⟩
  intro ef hmem
  constructor
  · intro hin
    have := excl _ hin
    rwa [pathRelative_pathJoin] at this
  · intro hnotcs
    by_contra hnotin
    apply hnotcs
    have hpres : lookupF st.fs.files (pathJoin emittedPath ef.file) ≠ none := by
      intro hnone
      rcases hc _ hnone with h1 | h1
      · exact hex ef hmem h1
      · exact hnotin h1
    obtain ⟨c, hcval⟩ : ∃ c, lookupF st.fs.files (pathJoin emittedPath ef.file) = some c := by
      cases hl : lookupF st.fs.files (pathJoin emittedPath ef.file) with
      | none => exact absurd hl hpres
      | some c => exact ⟨c, rfl⟩
    refine mem_copyAssetsModel.mpr ⟨pathJoin emittedPath ef.file, c, lookupF_mem hcval,
      List.prefix_append _ _, ?_, pathRelative_pathJoin _ _⟩
    intro hig
    rw [List.mem_map] at hig
    obtain ⟨q, hqmem, hqrel⟩ := hig
    obtain ⟨ef', _, hor⟩ := hpref q hqmem
    have hq : q = pathJoin emittedPath ef.file := by
      rcases hor with h2 | h2 <;>
        (rw [h2] at hqrel ⊢; simp only [pathRelative_pathJoin] at hqrel; rw [hqrel])
    rw [hq] at hqmem
    exact hnotin hqmem

/-- C3 (amended): an artifact yields an `InlineOptions` request iff it is not
an asset, its extension is `.js`, and its logical name is absent, empty, or
not in the excluded entry-point name set (a present empty name is falsy in
JavaScript, so it does not trigger the exclusion); skipped artifacts are left
completely untouched; the queued filenames are exactly the files of the
non-skipped artifacts, in order. -/
theorem c3_classification_amended :
    ∀ (cfg : InlineConfig) (st st' : ConsumeState) (efs : List EmittedFile) (ef : EmittedFile),
      (isSkipped cfg.scriptsEntryPointName ef = false ↔
        (ef.asset = false ∧ ef.extension = ".js" ∧
          ∀ n, ef.name = some n → n = "" ∨ n ∉ cfg.scriptsEntryPointName)) ∧
      (isSkipped cfg.scriptsEntryPointName ef = true → consumeOne cfg st ef = .ok st) ∧
      (consumeFiles cfg st efs = .ok st' →
        st'.options.map InlineOptions.filename =
          st.options.map InlineOptions.filename ++
            (efs.filter fun e => !isSkipped cfg.scriptsEntryPointName e).map EmittedFile.file) := by
  intro cfg st st' efs ef
  refine ⟨?_, ?_, ?_⟩
  · rw [isSkipped]
    cases hn : ef.name with
    | none => simp
    | some n =>
      by_cases hnil : n = ""
      · subst hnil
        simp
      · simp [hnil, and_assoc]
  · intro hsk
    simp [consumeOne, hsk]
  · intro h
    have h2 := congrArg (List.map Prod.fst) (consumeFiles_optionsKey h)
    simpa [List.map_map, Function.comp, optionsKey, efLocaleKey] using h2

/-- C8: the `setLocale` flag of every produced request is true exactly when
the artifact's logical name is `main` or `vendor`, and false otherwise —
in particular for artifacts without a logical name. -/
theorem c8_setLocale (cfg : InlineConfig) (st st' : ConsumeState) (efs : List EmittedFile)
    (h : consumeFiles cfg st efs = .ok st') :
    st'.options.map optionsKey = st.options.map optionsKey ++
      (efs.filter fun e => !isSkipped cfg.scriptsEntryPointName e).map efLocaleKey ∧
    (∀ ef : EmittedFile,
      ((efLocaleKey ef).2 = true ↔ (ef.name = some "main" ∨ ef.name = some "vendor"))) ∧
    (∀ ef : EmittedFile, ef.name = none → (efLocaleKey ef).2 = false) := by
  refine ⟨consumeFiles_optionsKey h, ?_, ?_⟩
  · intro ef
    simp [efLocaleKey]
  · intro ef hn
    simp [efLocaleKey, hn]

/-- C5 (amended): a fatal exception anywhere — including one raised by the
executor's stream after consumption completed — makes the operation return
`false` without performing the pass-through reconciliation for that attempt;
reconciliation runs exactly when consumption and the stream complete without
exception and `copyAssets` does not fail, and then it runs regardless of the
diagnostics verdict. -/
theorem c5_reconciliation (env : Env) (emittedFiles : List EmittedFile)
    (baseOutputPath : FPath) (outputPaths : List FPath) (scriptsEntryPointName : List String)
    (emittedPath : FPath) (es5 : Bool) (mt : Option MissingTranslation) (st : ConsumeState)
    (h : emittedFilesToInlineOptions
        (mkConfig baseOutputPath scriptsEntryPointName emittedPath es5 mt)
        env.fs0 emittedFiles = .ok st) :
    ((env.inline st.options).2.isSome →
      (i18nInlineEmittedFiles env emittedFiles baseOutputPath outputPaths scriptsEntryPointName
          emittedPath es5 mt).copiedRel = none ∧
      (i18nInlineEmittedFiles env emittedFiles baseOutputPath outputPaths scriptsEntryPointName
          emittedPath es5 mt).success = false) ∧
    ((env.inline st.options).2 = none → env.copyFail = none →
      (i18nInlineEmittedFiles env emittedFiles baseOutputPath outputPaths scriptsEntryPointName
          emittedPath es5 mt).copiedRel =
        some (copyAssetsModel st.fs emittedPath
          (st.originalFiles.map (pathRelative emittedPath)))) := by
  constructor
  · intro hsome
    obtain ⟨e, he⟩ := Option.isSome_iff_exists.mp hsome
    simp [i18nInlineEmittedFiles, h, he]
  · intro hnone hcf
    simp [i18nInlineEmittedFiles, h, hnone, hcf]

theorem unlinkSync_denied {fs : FsState} {p : FPath} (h : p ∈ fs.unlinkDenied) :
    unlinkSync fs p = .error ⟨.eacces, "EACCES: permission denied"⟩ := by
  rw [unlinkSync, if_pos h]

/-- C4 (amended): for an eligible artifact whose primary read succeeded,
(1) if the companion map file does not exist, consumption succeeds with no
map attached and no error; (2) a non-`ENOENT` read error on the map file is
fatal — it aborts the whole batch; (3) a delete error on the map file is
non-fatal — the map is attached, the failure is logged, the map file stays
on disk, and consumption continues. -/
theorem c4_map_handling :
    ∀ (cfg : InlineConfig) (st : ConsumeState) (ef : EmittedFile) (rest : List EmittedFile),
      (∀ code, isSkipped cfg.scriptsEntryPointName ef = false →
        readSync st.fs (pathJoin cfg.emittedPath ef.file) = .ok code →
        lookupF st.fs.files (addMapExt (pathJoin cfg.emittedPath ef.file)) = none →
        addMapExt (pathJoin cfg.emittedPath ef.file) ∉ st.fs.readDenied →
        ∃ st' a, consumeOne cfg st ef = .ok st' ∧
          st'.options = st.options ++ [a] ∧ a.map = none ∧
          st'.originalFiles = st.originalFiles ++ [pathJoin cfg.emittedPath ef.file] ∧
          consumeFiles cfg st (ef :: rest) = consumeFiles cfg st' rest) ∧
      (∀ code, isSkipped cfg.scriptsEntryPointName ef = false →
        readSync st.fs (pathJoin cfg.emittedPath ef.file) = .ok code →
        addMapExt (pathJoin cfg.emittedPath ef.file) ∈ st.fs.readDenied →
        consumeOne cfg st ef = .error ⟨.eacces, "EACCES: permission denied"⟩ ∧
        consumeFiles cfg st (ef :: rest) = .error ⟨.eacces, "EACCES: permission denied"⟩) ∧
      (∀ code mc, isSkipped cfg.scriptsEntryPointName ef = false →
        readSync st.fs (pathJoin cfg.emittedPath ef.file) = .ok code →
        addMapExt (pathJoin cfg.emittedPath ef.file) ∉ st.fs.readDenied →
        lookupF st.fs.files (addMapExt (pathJoin cfg.emittedPath ef.file)) = some mc →
        addMapExt (pathJoin cfg.emittedPath ef.file) ∈ st.fs.unlinkDenied →
        ∃ st' a, consumeOne cfg st ef = .ok st' ∧
          st'.options = st.options ++ [a] ∧ a.map = some mc ∧
          LogEntry.debug ("Unable to delete i18n temporary file: " ++
            "EACCES: permission denied") ∈ st'.log ∧
          lookupF st'.fs.files (addMapExt (pathJoin cfg.emittedPath ef.file)) = some mc ∧
          consumeFiles cfg st (ef :: rest) = consumeFiles cfg st' rest) := by
  intro cfg st ef rest
  refine ⟨?_, ?_, ?_⟩
  · intro code hsk hread hlm hmr
    cases hu : unlinkSync st.fs (pathJoin cfg.emittedPath ef.file) with
    | ok fs2 =>
      obtain rfl := unlinkSync_ok hu
      have hmapread : readSync
          { st.fs with files := removeF st.fs.files (pathJoin cfg.emittedPath ef.file) }
          (addMapExt (pathJoin cfg.emittedPath ef.file)) =
          .error ⟨.enoent, "ENOENT: no such file or directory"⟩ := by
        simp [readSync, hmr, lookupF_removeF, hlm]
      have hco : consumeOne cfg st ef = .ok
          { fs := { st.fs with files := removeF st.fs.files (pathJoin cfg.emittedPath ef.file) }
            options := st.options ++
              [{ filename := ef.file, code := code, map := none, es5 := cfg.es5,
                 outputPath := cfg.outputPath, missingTranslation := cfg.missingTranslation,
                 setLocale := ef.name == some "main" || ef.name == some "vendor" }]
            originalFiles := st.originalFiles ++ [pathJoin cfg.emittedPath ef.file]
            log := st.log ++ [.debug "i18n file queued for processing"] } := by
        simp [consumeOne, hsk, hread, hu, hmapread]
      exact ⟨_, _, hco, rfl, rfl, rfl, by simp only [consumeFiles, hco]⟩
    | error e =>
      have hmapread : readSync st.fs (addMapExt (pathJoin cfg.emittedPath ef.file)) =
          .error ⟨.enoent, "ENOENT: no such file or directory"⟩ := by
        simp [readSync, hmr, hlm]
      have hco : consumeOne cfg st ef = .ok
          { fs := st.fs
            options := st.options ++
              [{ filename := ef.file, code := code, map := none, es5 := cfg.es5,
                 outputPath := cfg.outputPath, missingTranslation := cfg.missingTranslation,
                 setLocale := ef.name == some "main" || ef.name == some "vendor" }]
            originalFiles := st.originalFiles ++ [pathJoin cfg.emittedPath ef.file]
            log := (st.log ++ [.debug ("Unable to delete i18n temporary file: " ++ e.msg)]) ++
              [.debug "i18n file queued for processing"] } := by
        simp [consumeOne, hsk, hread, hu, hmapread]
      exact ⟨_, _, hco, rfl, rfl, rfl, by simp only [consumeFiles, hco]⟩
  · intro code hsk hread hmr
    cases hu : unlinkSync st.fs (pathJoin cfg.emittedPath ef.file) with
    | ok fs2 =>
      obtain rfl := unlinkSync_ok hu
      have hmapread : readSync
          { st.fs with files := removeF st.fs.files (pathJoin cfg.emittedPath ef.file) }
          (addMapExt (pathJoin cfg.emittedPath ef.file)) =
          .error ⟨.eacces, "EACCES: permission denied"⟩ := by
        simp [readSync, hmr]
      have hco : consumeOne cfg st ef = .error ⟨.eacces, "EACCES: permission denied"⟩ := by
        simp [consumeOne, hsk, hread, hu, hmapread]
      exact ⟨hco, by simp only [consumeFiles, hco]⟩
    | error e =>
      have hmapread : readSync st.fs (addMapExt (pathJoin cfg.emittedPath ef.file)) =
          .error ⟨.eacces, "EACCES: permission denied"⟩ := by
        simp [readSync, hmr]
      have hco : consumeOne cfg st ef = .error ⟨.eacces, "EACCES: permission denied"⟩ := by
        simp [consumeOne, hsk, hread, hu, hmapread]
      exact ⟨hco, by simp only [consumeFiles, hco]⟩
  · intro code mc hsk hread hmr hml hmdel
    cases hu : unlinkSync st.fs (pathJoin cfg.emittedPath ef.file) with
    | ok fs2 =>
      obtain rfl := unlinkSync_ok hu
      have hmapread : readSync
          { st.fs with files := removeF st.fs.files (pathJoin cfg.emittedPath ef.file) }
          (addMapExt (pathJoin cfg.emittedPath ef.file)) = .ok mc := by
        simp [readSync, hmr, lookupF_removeF, hml, addMapExt_ne]
      have hmu : unlinkSync
          { st.fs with files := removeF st.fs.files (pathJoin cfg.emittedPath ef.file) }
          (addMapExt (pathJoin cfg.emittedPath ef.file)) =
          .error ⟨.eacces, "EACCES: permission denied"⟩ := unlinkSync_denied hmdel
      have hco : consumeOne cfg st ef = .ok
          { fs := { st.fs with files := removeF st.fs.files (pathJoin cfg.emittedPath ef.file) }
            options := st.options ++
              [{ filename := ef.file, code := code, map := some mc, es5 := cfg.es5,
                 outputPath := cfg.outputPath, missingTranslation := cfg.missingTranslation,
                 setLocale := ef.name == some "main" || ef.name == some "vendor" }]
            originalFiles := (st.originalFiles ++ [pathJoin cfg.emittedPath ef.file]) ++
              [addMapExt (pathJoin cfg.emittedPath ef.file)]
            log := (st.log ++ [.debug ("Unable to delete i18n temporary file: " ++
              "EACCES: permission denied")]) ++ [.debug "i18n file queued for processing"] } := by
        simp [consumeOne, hsk, hread, hu, hmapread, hmu]
      refine ⟨_, _, hco, rfl, rfl, ?_, ?_, by simp only [consumeFiles, hco]⟩
      · simp
      · simp [lookupF_removeF, hml, addMapExt_ne]
    | error e =>
      have hmapread : readSync st.fs (addMapExt (pathJoin cfg.emittedPath ef.file)) = .ok mc := by
        simp [readSync, hmr, hml]
      have hmu : unlinkSync st.fs (addMapExt (pathJoin cfg.emittedPath ef.file)) =
          .error ⟨.eacces, "EACCES: permission denied"⟩ := unlinkSync_denied hmdel
      have hco : consumeOne cfg st ef = .ok
          { fs := st.fs
            options := st.options ++
              [{ filename := ef.file, code := code, map := some mc, es5 := cfg.es5,
                 outputPath := cfg.outputPath, missingTranslation := cfg.missingTranslation,
                 setLocale := ef.name == some "main" || ef.name == some "vendor" }]
            originalFiles := (st.originalFiles ++ [pathJoin cfg.emittedPath ef.file]) ++
              [addMapExt (pathJoin cfg.emittedPath ef.file)]
            log := ((st.log ++ [.debug ("Unable to delete i18n temporary file: " ++ e.msg)]) ++
              [.debug ("Unable to delete i18n temporary file: " ++
                "EACCES: permission denied")]) ++ [.debug "i18n file queued for processing"] } := by
        simp [consumeOne, hsk, hread, hu, hmapread, hmu]
      refine ⟨_, _, hco, rfl, rfl, ?_, ?_, by simp only [consumeFiles, hco]⟩
      · simp
      · simp [hml]

/-- C9: when the primary file of an eligible artifact was read successfully
but its deletion fails, the failure is only logged, the request is still
produced with the captured content, and consumption continues with the
remaining artifacts. -/
theorem c9_primary_delete_nonfatal (cfg : InlineConfig) (st : ConsumeState) (ef : EmittedFile)
    (rest : List EmittedFile) (code : String)
    (hsk : isSkipped cfg.scriptsEntryPointName ef = false)
    (hread : readSync st.fs (pathJoin cfg.emittedPath ef.file) = .ok code)
    (hdel : pathJoin cfg.emittedPath ef.file ∈ st.fs.unlinkDenied)
    (hmr : addMapExt (pathJoin cfg.emittedPath ef.file) ∉ st.fs.readDenied) :
    ∃ st' a, consumeOne cfg st ef = .ok st' ∧
      st'.options = st.options ++ [a] ∧ a.code = code ∧
      LogEntry.debug ("Unable to delete i18n temporary file: " ++
        "EACCES: permission denied") ∈ st'.log ∧
      consumeFiles cfg st (ef :: rest) = consumeFiles cfg st' rest := by
  have hu := unlinkSync_denied hdel
  cases hml : lookupF st.fs.files (addMapExt (pathJoin cfg.emittedPath ef.file)) with
  | none =>
    have hmapread : readSync st.fs (addMapExt (pathJoin cfg.emittedPath ef.file)) =
        .error ⟨.enoent, "ENOENT: no such file or directory"⟩ := by
      simp [readSync, hmr, hml]
    have hco : consumeOne cfg st ef = .ok
        { fs := st.fs
          options := st.options ++
            [{ filename := ef.file, code := code, map := none, es5 := cfg.es5,
               outputPath := cfg.outputPath, missingTranslation := cfg.missingTranslation,
               setLocale := ef.name == some "main" || ef.name == some "vendor" }]
          originalFiles := st.originalFiles ++ [pathJoin cfg.emittedPath ef.file]
          log := (st.log ++ [.debug ("Unable to delete i18n temporary file: " ++
            "EACCES: permission denied")]) ++ [.debug "i18n file queued for processing"] } := by
      simp [consumeOne, hsk, hread, hu, hmapread]
    exact ⟨_, _, hco, rfl, rfl, by simp, by simp only [consumeFiles, hco]⟩
  | some mc =>
    have hmapread : readSync st.fs (addMapExt (pathJoin cfg.emittedPath ef.file)) = .ok mc := by
      simp [readSync, hmr, hml]
    cases hmu : unlinkSync st.fs (addMapExt (pathJoin cfg.emittedPath ef.file)) with
    | ok fs3 =>
      obtain rfl := unlinkSync_ok hmu
      have hco : consumeOne cfg st ef = .ok
          { fs := { st.fs with
              files := removeF st.fs.files (addMapExt (pathJoin cfg.emittedPath ef.file)) }
            options := st.options ++
              [{ filename := ef.file, code := code, map := some mc, es5 := cfg.es5,
                 outputPath := cfg.outputPath, missingTranslation := cfg.missingTranslation,
                 setLocale := ef.name == some "main" || ef.name == some "vendor" }]
            originalFiles := (st.originalFiles ++ [pathJoin cfg.emittedPath ef.file]) ++
              [addMapExt (pathJoin cfg.emittedPath ef.file)]
            log := (st.log ++ [.debug ("Unable to delete i18n temporary file: " ++
              "EACCES: permission denied")]) ++ [.debug "i18n file queued for processing"] } := by
        simp [consumeOne, hsk, hread, hu, hmapread, hmu]
      exact ⟨_, _, hco, rfl, rfl, by simp, by simp only [consumeFiles, hco]⟩
    | error e2 =>
      have hco : consumeOne cfg st ef = .ok
          { fs := st.fs
            options := st.options ++
              [{ filename := ef.file, code := code, map := some mc, es5 := cfg.es5,
                 outputPath := cfg.outputPath, missingTranslation := cfg.missingTranslation,
                 setLocale := ef.name == some "main" || ef.name == some "vendor" }]
            originalFiles := (st.originalFiles ++ [pathJoin cfg.emittedPath ef.file]) ++
              [addMapExt (pathJoin cfg.emittedPath ef.file)]
            log := ((st.log ++ [.debug ("Unable to delete i18n temporary file: " ++
              "EACCES: permission denied")]) ++
              [.debug ("Unable to delete i18n temporary file: " ++ e2.msg)]) ++
              [.debug "i18n file queued for processing"] } := by
        simp [consumeOne, hsk, hread, hu, hmapread, hmu]
      exact ⟨_, _, hco, rfl, rfl, by simp, by simp only [consumeFiles, hco]⟩

/-- C10: the primary path — and the map path when the map read succeeds — is
recorded in `originalFiles` even though both deletions fail, so both files
remain on disk and are nevertheless excluded from the pass-through copy. -/
theorem c10_consumed_before_delete (cfg : InlineConfig) (st : ConsumeState) (ef : EmittedFile)
    (code mc : String)
    (hsk : isSkipped cfg.scriptsEntryPointName ef = false)
    (hread : readSync st.fs (pathJoin cfg.emittedPath ef.file) = .ok code)
    (hjdel : pathJoin cfg.emittedPath ef.file ∈ st.fs.unlinkDenied)
    (hmr : addMapExt (pathJoin cfg.emittedPath ef.file) ∉ st.fs.readDenied)
    (hml : lookupF st.fs.files (addMapExt (pathJoin cfg.emittedPath ef.file)) = some mc)
    (hmdel : addMapExt (pathJoin cfg.emittedPath ef.file) ∈ st.fs.unlinkDenied) :
    ∃ st', consumeOne cfg st ef = .ok st' ∧
      st'.originalFiles = (st.originalFiles ++ [pathJoin cfg.emittedPath ef.file]) ++
        [addMapExt (pathJoin cfg.emittedPath ef.file)] ∧
      lookupF st'.fs.files (pathJoin cfg.emittedPath ef.file) = some code ∧
      lookupF st'.fs.files (addMapExt (pathJoin cfg.emittedPath ef.file)) = some mc ∧
      ef.file ∉ copyAssetsModel st'.fs cfg.emittedPath
        (st'.originalFiles.map (pathRelative cfg.emittedPath)) ∧
      pathRelative cfg.emittedPath (addMapExt (pathJoin cfg.emittedPath ef.file)) ∉
        copyAssetsModel st'.fs cfg.emittedPath
          (st'.originalFiles.map (pathRelative cfg.emittedPath)) := by
  have hu := unlinkSync_denied hjdel
  have hmu := unlinkSync_denied hmdel
  have hmapread : readSync st.fs (addMapExt (pathJoin cfg.emittedPath ef.file)) = .ok mc := by
    simp [readSync, hmr, hml]
  have hco : consumeOne cfg st ef = .ok
      { fs := st.fs
        options := st.options ++
          [{ filename := ef.file, code := code, map := some mc, es5 := cfg.es5,
             outputPath := cfg.outputPath, missingTranslation := cfg.missingTranslation,
             setLocale := ef.name == some "main" || ef.name == some "vendor" }]
        originalFiles := (st.originalFiles ++ [pathJoin cfg.emittedPath ef.file]) ++
          [addMapExt (pathJoin cfg.emittedPath ef.file)]
        log := ((st.log ++ [.debug ("Unable to delete i18n temporary file: " ++
          "EACCES: permission denied")]) ++
          [.debug ("Unable to delete i18n temporary file: " ++
            "EACCES: permission denied")]) ++
          [.debug "i18n file queued for processing"] } := by
    simp [consumeOne, hsk, hread, hu, hmapread, hmu]
  refine ⟨_, hco, rfl, (readSync_ok hread).2, hml, ?_, ?_⟩
  · intro hmem
    rw [mem_copyAssetsModel] at hmem
    obtain ⟨q, c, _, _, hnotig, hrel⟩ := hmem
    apply hnotig
    rw [hrel]
    exact List.mem_map.mpr ⟨pathJoin cfg.emittedPath ef.file, by simp,
      pathRelative_pathJoin _ _⟩
  · intro hmem
    rw [mem_copyAssetsModel] at hmem
    obtain ⟨q, c, _, _, hnotig, hrel⟩ := hmem
    apply hnotig
    rw [hrel]
    exact List.mem_map.mpr ⟨addMapExt (pathJoin cfg.emittedPath ef.file), by simp, rfl⟩

/-! ## Witnesses and counterexamples -/

/-- C3 counterexample: an artifact whose logical name is present (the empty
string) and is a member of the excluded entry-point name set still yields an
InlineRequest, because an empty JavaScript string is falsy in the guard
`emittedFile.name && scriptsEntryPointName.includes(emittedFile.name)`. -/
theorem c3_counterexample :
    efC3.name = some "" ∧ "" ∈ cfgC3.scriptsEntryPointName ∧
    efC3.asset = false ∧ efC3.extension = ".js" ∧
    isSkipped cfgC3.scriptsEntryPointName efC3 = false ∧
    (emittedFilesToInlineOptions cfgC3 fsC3 [efC3]).toOption.map
      (fun st => st.options.map InlineOptions.filename) = some [["x.js"]] := by
  refine ⟨rfl, by decide, rfl, rfl, by decide, rfl⟩

/-- C4 counterexample: a permission (non-`ENOENT`) error reading the map
file is thrown, aborting the whole batch — nothing is submitted and the run
returns `false` — rather than being reported as a non-fatal logged
diagnostic. -/
theorem c4_counterexample :
    emittedFilesToInlineOptions cfgA fsC4 [efC4] =
      .error ⟨.eacces, "EACCES: permission denied"⟩ ∧
    (i18nInlineEmittedFiles envC4 [efC4] ["out"] [["out"]] [] [] false none).success = false ∧
    (i18nInlineEmittedFiles envC4 [efC4] ["out"] [["out"]] [] [] false none).submitted = none := by
  refine ⟨rfl, rfl, rfl⟩

/-- C5 counterexample: consumption completed (the options were submitted),
a fatal stream error followed, and the run returned `false` without
attempting the pass-through reconciliation. -/
theorem c5_counterexample :
    (i18nInlineEmittedFiles envC5 efsA ["out"] [["out"]] [] [] false none).submitted =
      some stA.options ∧
    (i18nInlineEmittedFiles envC5 efsA ["out"] [["out"]] [] [] false none).success = false ∧
    (i18nInlineEmittedFiles envC5 efsA ["out"] [["out"]] [] [] false none).copiedRel = none := by
  refine ⟨rfl, rfl, rfl⟩

/-- C2 witness: on scenario A, the consumed `main.js` is not copied and the
untouched `styles.css` is copied — each artifact is covered exactly once. -/
theorem c2_witness :
    (pathJoin [] efMain.file ∈ (i18nInlineEmittedFiles envA efsA ["out"] [["out"]] [] [] false
        none).consumed ↔ efMain.file ∉ [[ "styles.css" ]]) ∧
    (pathJoin [] efStyles.file ∈ (i18nInlineEmittedFiles envA efsA ["out"] [["out"]] [] [] false
        none).consumed ↔ efStyles.file ∉ [[ "styles.css" ]]) :=
  ⟨(c2_consumed_excluded_cover envA efsA ["out"] [["out"]] [] [] false none
      [[ "styles.css" ]] rfl (by decide) (by decide)).2 efMain (by decide),
   (c2_consumed_excluded_cover envA efsA ["out"] [["out"]] [] [] false none
      [[ "styles.css" ]] rfl (by decide) (by decide)).2 efStyles (by decide)⟩

/-- C5 witness: on scenario B the stream carries an error-severity
diagnostic but raises no exception, and the pass-through reconciliation
still runs. -/
theorem c5_witness :
    (i18nInlineEmittedFiles envB efsB ["out"] [["out"]] [] [] false none).copiedRel =
      some (copyAssetsModel stB.fs [] (stB.originalFiles.map (pathRelative []))) :=
  (c5_reconciliation envB efsB ["out"] [["out"]] [] [] false none stB rfl).2 rfl rfl

/-- C7 witness: on scenario B both streamed results are processed — the
error for `main.js` does not stop the loop — every diagnostic is reported on
its channel, and the verdict is exactly the absence of error diagnostics. -/
theorem c7_witness :
    (i18nInlineEmittedFiles envB efsB ["out"] [["out"]] [] [] false none).resultsProcessed =
      (envB.inline stB.options).1 ∧
    (i18nInlineEmittedFiles envB efsB ["out"] [["out"]] [] [] false none).log =
      stB.log ++ reportedDiagnostics (envB.inline stB.options).1 ∧
    ((envB.inline stB.options).2 = none → envB.copyFail = none →
      (i18nInlineEmittedFiles envB efsB ["out"] [["out"]] [] [] false none).success =
        !anyErrorDiag (envB.inline stB.options).1) :=
  c7_stream_aggregation envB efsB ["out"] [["out"]] [] [] false none stB rfl

/-- C8 witness: on scenario B the produced requests carry `setLocale = true`
for both `main` and `vendor`, matching the artifact-side formula. -/
theorem c8_witness :
    stB.options.map optionsKey = st0A.options.map optionsKey ++
      (efsB.filter fun e => !isSkipped cfgA.scriptsEntryPointName e).map efLocaleKey ∧
    (∀ ef : EmittedFile,
      ((efLocaleKey ef).2 = true ↔ (ef.name = some "main" ∨ ef.name = some "vendor"))) ∧
    (∀ ef : EmittedFile, ef.name = none → (efLocaleKey ef).2 = false) :=
  c8_setLocale cfgA { fs := fsB, options := [], originalFiles := [], log := [] } stB efsB rfl

/-- C9 witness: a concrete eligible artifact whose primary delete is denied
is still queued, the failure is logged, and consumption continues. -/
theorem c9_witness :
    ∃ st' a, consumeOne cfgA stC9 efC9 = .ok st' ∧
      st'.options = stC9.options ++ [a] ∧ a.code = "A" ∧
      LogEntry.debug ("Unable to delete i18n temporary file: " ++
        "EACCES: permission denied") ∈ st'.log ∧
      consumeFiles cfgA stC9 (efC9 :: []) = consumeFiles cfgA st' [] :=
  c9_primary_delete_nonfatal cfgA stC9 efC9 [] "A" (by decide) rfl (by decide) (by decide)

/-- C10 witness: with both deletions denied, both paths are recorded, both
files remain on disk, and both are excluded from the pass-through copy. -/
theorem c10_witness :
    ∃ st', consumeOne cfgA stC10 efC9 = .ok st' ∧
      st'.originalFiles = (stC10.originalFiles ++ [pathJoin cfgA.emittedPath efC9.file]) ++
        [addMapExt (pathJoin cfgA.emittedPath efC9.file)] ∧
      lookupF st'.fs.files (pathJoin cfgA.emittedPath efC9.file) = some "A" ∧
      lookupF st'.fs.files (addMapExt (pathJoin cfgA.emittedPath efC9.file)) = some "M" ∧
      efC9.file ∉ copyAssetsModel st'.fs cfgA.emittedPath
        (st'.originalFiles.map (pathRelative cfgA.emittedPath)) ∧
      pathRelative cfgA.emittedPath (addMapExt (pathJoin cfgA.emittedPath efC9.file)) ∉
        copyAssetsModel st'.fs cfgA.emittedPath
          (st'.originalFiles.map (pathRelative cfgA.emittedPath)) :=
  c10_consumed_before_delete cfgA stC10 efC9 "A" "M" (by decide) rfl (by decide) (by decide)
    rfl (by decide)
